import Mathlib

/-!
Verification of the miners repository (a Minecraft-protocol client).

This file gives a shallow embedding of the buffer codec, the frame codec,
the low-level packet-handler registry, the client event dispatcher and the
NBT decoder, translated from the Rust sources under crates/miners-protocol
and src/, and proves or refutes the specification claims about them.

Conventions of the embedding:
* a byte buffer is a `List Nat` whose elements are u8 values (each < 256);
  readers consume from the front, writers append;
* Rust `u8`/`u16`/`u32`/`u64` arithmetic is rendered on `Nat` with explicit
  `% 2 ^ w` where wrapping matters; signed values (`i8`/`i16`/`i32`/`i64`)
  are `Int` obtained from the unsigned bit pattern;
* a Rust panic (out-of-bounds index, `unwrap` failure) is `none`;
  a Rust `Result::Err` is `Except.error`;
* the zlib encoder and decoder (the external flate2 crate) are abstract
  function parameters; decompression failure is `none` from the parameter.
-/

/-- Two's-complement 32-bit pattern of an `i32`, as used by the Rust casts
`as u32` / writing an `i32` bit pattern.  -/
def toU32 (n : Int) : Nat := (n % (2 ^ 32 : Nat)).toNat

/-- Reading of a `u8` pattern as Rust `i8` (`as i8`). -/
def toI8 (u : Nat) : Int :=
  if u % 2 ^ 8 < 2 ^ 7 then ((u % 2 ^ 8 : Nat) : Int) else (u % 2 ^ 8 : Nat) - 2 ^ 8

/-- Reading of a `u16` pattern as Rust `i16`. -/
def toI16 (u : Nat) : Int :=
  if u % 2 ^ 16 < 2 ^ 15 then ((u % 2 ^ 16 : Nat) : Int) else (u % 2 ^ 16 : Nat) - 2 ^ 16

/-- Reading of a `u32` pattern as Rust `i32`. -/
def toI32 (u : Nat) : Int :=
  if u % 2 ^ 32 < 2 ^ 31 then ((u % 2 ^ 32 : Nat) : Int) else (u % 2 ^ 32 : Nat) - 2 ^ 32

/-- Reading of a `u64` pattern as Rust `i64`. -/
def toI64 (u : Nat) : Int :=
  if u % 2 ^ 64 < 2 ^ 63 then ((u % 2 ^ 64 : Nat) : Int) else (u % 2 ^ 64 : Nat) - 2 ^ 64

/-- `RawPacket::write_varint` (packet.rs 112-127) on the unsigned 32-bit
pattern of the argument: emit the low 7 bits, set the continuation bit when
the logical right shift by 7 is non-zero, and repeat on that shift.
(`(value >> 7) & (i32::max_value() >> 6)` is exactly the logical shift,
i.e. division by 128 of the pattern.) -/
def writeVarint (u : Nat) : List Nat :=
  if h : u < 128 then [u] else (u % 128 + 128) :: writeVarint (u / 128)
  termination_by u
  decreasing_by exact Nat.div_lt_self (by omega) (by omega)

/-- `write_varint` on an `i32` argument: the loop operates on the
two's-complement pattern. -/
def writeVarintI (n : Int) : List Nat := writeVarint (toU32 n)

/-- `RawPacket::read_byte` (packet.rs 176-180): pop the front byte;
an empty buffer is an index panic, modelled as `none`. -/
def readByte : List Nat → Option (Nat × List Nat)
  | [] => none
  | b :: rest => some (b, rest)

/-- Loop body of `RawPacket::read_varint` (packet.rs 190-201): at most four
iterations (`for i in 0..4`); `k` counts the iterations still allowed after
the current one (so the first call has `k = 3`), `i` is the iteration index
(shift amount `7 * i`), `acc` the bits assembled so far.  The loop breaks
when the continuation bit of the byte just read is clear, and in any case
after the fourth byte. -/
def rvGo : Nat → Nat → Nat → List Nat → Option (Nat × List Nat)
  | _, _, _, [] => none
  | 0, i, acc, b :: rest => some (acc ||| ((b % 128) <<< (7 * i)), rest)
  | k + 1, i, acc, b :: rest =>
    let acc2 := acc ||| ((b % 128) <<< (7 * i))
    if b % 256 < 128 then some (acc2, rest) else rvGo k (i + 1) acc2 rest

/-- `RawPacket::read_varint` (packet.rs 190-201).  The result is the i32
assembled from at most 4 low-7-bit groups, hence always in `[0, 2^28)`;
it is returned as the `Nat` it is. -/
def readVarint (data : List Nat) : Option (Nat × List Nat) := rvGo 3 0 0 data

/-- Loop of `RawPacket::try_read_varint` (packet.rs 205-219): identical to
`read_varint` except that an empty buffer yields `None` instead of a panic;
the bytes already taken stay consumed. -/
def trvGo : Nat → Nat → Nat → List Nat → Option Nat × List Nat
  | _, _, _, [] => (none, [])
  | 0, i, acc, b :: rest => (some (acc ||| ((b % 128) <<< (7 * i))), rest)
  | k + 1, i, acc, b :: rest =>
    let acc2 := acc ||| ((b % 128) <<< (7 * i))
    if b % 256 < 128 then (some acc2, rest) else trvGo k (i + 1) acc2 rest

/-- `RawPacket::try_read_varint` (packet.rs 205-219); the second component
is the buffer as the call leaves it. -/
def tryReadVarint (data : List Nat) : Option Nat × List Nat := trvGo 3 0 0 data

/-- Character-reading loop of `RawPacket::read_string` (packet.rs 222-229):
read `n` bytes, each one pushed as the char with that code point
(Rust `u8 as char`). -/
def readChars : Nat → List Nat → Option (List Nat × List Nat)
  | 0, d => some ([], d)
  | _ + 1, [] => none
  | n + 1, b :: rest => (readChars n rest).map (fun sd => (b :: sd.1, sd.2))

/-- `RawPacket::read_string` (packet.rs 222-229): VarInt byte length, then
that many bytes each taken as one char.  The resulting Rust `String` is
modelled as its list of code points. -/
def readString (data : List Nat) : Option (List Nat × List Nat) :=
  match readVarint data with
  | none => none
  | some (len, d) => readChars len d

/-- Loop of `RawPacket::try_read_string` (packet.rs 243-256): before each
byte the buffer is tested for emptiness; `None` on exhaustion, with
everything up to that point consumed. -/
def tryReadChars : Nat → List Nat → Option (List Nat) × List Nat
  | 0, d => (some [], d)
  | _ + 1, [] => (none, [])
  | n + 1, b :: rest =>
    match tryReadChars n rest with
    | (some s, d) => (some (b :: s), d)
    | (none, d) => (none, d)

/-- `RawPacket::try_read_string` (packet.rs 243-256). -/
def tryReadString (data : List Nat) : Option (List Nat) × List Nat :=
  match tryReadVarint data with
  | (none, d) => (none, d)
  | (some len, d) => tryReadChars len d

/-- Big-endian accumulation loop shared by the fixed-width readers
(packet.rs 259-358): `k` bytes, each step `result <<= 8; result |= byte`
in a `w`-bit unsigned register. -/
def readBEGo (w : Nat) : Nat → Nat → List Nat → Option (Nat × List Nat)
  | 0, acc, data => some (acc, data)
  | k + 1, acc, data =>
    match data with
    | [] => none
    | b :: rest => readBEGo w k ((acc * 256 % 2 ^ w) ||| b) rest

/-- `RawPacket::read_ushort` (packet.rs 259-264). -/
def readUshort (data : List Nat) : Option (Nat × List Nat) := readBEGo 16 2 0 data

/-- `RawPacket::read_ulong` (packet.rs 267-286). -/
def readUlong (data : List Nat) : Option (Nat × List Nat) := readBEGo 64 8 0 data

/-- `RawPacket::read_long` (packet.rs 289-306): the i64 read from the same
8-byte big-endian pattern. -/
def readLong (data : List Nat) : Option (Int × List Nat) :=
  (readBEGo 64 8 0 data).map (fun ud => (toI64 ud.1, ud.2))

/-- `RawPacket::read_int` (packet.rs 309-318). -/
def readInt (data : List Nat) : Option (Int × List Nat) :=
  (readBEGo 32 4 0 data).map (fun ud => (toI32 ud.1, ud.2))

/-- `RawPacket::read_short` (packet.rs 321-326). -/
def readShort (data : List Nat) : Option (Int × List Nat) :=
  (readBEGo 16 2 0 data).map (fun ud => (toI16 ud.1, ud.2))

/-- `RawPacket::read_float` (packet.rs 329-338); the f32 is kept as its
32-bit pattern (`f32::from_bits` applied to it in the source). -/
def readFloatBits (data : List Nat) : Option (Nat × List Nat) := readBEGo 32 4 0 data

/-- `RawPacket::read_double` (packet.rs 341-358), kept as its 64-bit
pattern. -/
def readDoubleBits (data : List Nat) : Option (Nat × List Nat) := readBEGo 64 8 0 data

/-- `RawPacket::read_bool` (packet.rs 361-363): one byte, compared to 1. -/
def readBool (data : List Nat) : Option (Bool × List Nat) :=
  (readByte data).map (fun bd => (bd.1 == 1, bd.2))

/-- `RawPacket::read_string_ushort` (packet.rs 232-239): unsigned-16
length prefix instead of a VarInt. -/
def readStringUshort (data : List Nat) : Option (List Nat × List Nat) :=
  match readUshort data with
  | none => none
  | some (len, d) => readChars len d

/-- `RawPacket::read_uuid` (packet.rs 183-187): two unsigned longs, the
first one placed in the low 64 bits of the u128
(`(l1 as u128) | ((l2 as u128) << 64)`). -/
def readUuid (data : List Nat) : Option (Nat × List Nat) :=
  match readUlong data with
  | none => none
  | some (l1, d1) =>
    match readUlong d1 with
    | none => none
    | some (l2, d2) => some (l1 ||| (l2 <<< 64), d2)

/-- UTF-8 encoding of one Unicode scalar value, as a Rust `String` stores
its chars (`str::bytes` iterates these bytes; `str::len` counts them). -/
def utf8Char (c : Nat) : List Nat :=
  if c < 0x80 then [c]
  else if c < 0x800 then [0xC0 + c / 64, 0x80 + c % 64]
  else if c < 0x10000 then [0xE0 + c / 4096, 0x80 + c / 64 % 64, 0x80 + c % 64]
  else [0xF0 + c / 262144, 0x80 + c / 4096 % 64, 0x80 + c / 64 % 64, 0x80 + c % 64]

/-- UTF-8 byte sequence of a string given as its list of code points. -/
def utf8Bytes (s : List Nat) : List Nat := (s.map utf8Char).flatten

/-- `RawPacket::write_string` (packet.rs 130-135): VarInt byte length
(`string.len() as i32`), then the UTF-8 bytes. -/
def writeString (s : List Nat) : List Nat :=
  writeVarint ((utf8Bytes s).length % 2 ^ 32) ++ utf8Bytes s

/-- `RawMinecraftSocket::send_packet` (lib.rs 132-171): prepend the VarInt
id to the body; below a positive threshold emit
`[len+1][VarInt 0][id+body]`, at or above it emit
`[len of data part][VarInt original len][compressed id+body]`, and with
compression disabled emit `[len][id+body]`.  `compress` stands for the
flate2 zlib encoder. -/
def sendFrame (compress : List Nat → List Nat) (threshold : Int) (id : Int)
    (body : List Nat) : List Nat :=
  let inner := writeVarintI id ++ body
  let n := inner.length
  if threshold > 0 then
    if (n : Int) ≥ threshold then
      let dataPart := writeVarint (n % 2 ^ 32) ++ compress inner
      writeVarint (dataPart.length % 2 ^ 32) ++ dataPart
    else
      writeVarint ((n + 1) % 2 ^ 32) ++ writeVarint 0 ++ inner
  else
    writeVarint (n % 2 ^ 32) ++ inner

/-- Length-reading loop of `RawPacket::read_from_socket` (packet.rs 52-60):
same four-iteration VarInt loop, but a short read is ignored
(`read_exact(..).ok()`) and leaves the one-byte buffer holding its previous
value (initially 0).  `k` counts the iterations still allowed after the
current one. -/
def readWireLenGo : Nat → Nat → Nat → Nat → List Nat → Nat × List Nat
  | 0, i, acc, prevB, data => (acc ||| ((data.headD prevB % 128) <<< (7 * i)), data.tail)
  | k + 1, i, acc, prevB, data =>
    let b := data.headD prevB
    let acc2 := acc ||| ((b % 128) <<< (7 * i))
    if b % 256 < 128 then (acc2, data.tail)
    else readWireLenGo k (i + 1) acc2 b data.tail

/-- Frame-length read of `RawPacket::read_from_socket`. -/
def readWireLen (stream : List Nat) : Nat × List Nat := readWireLenGo 3 0 0 0 stream

/-- `RawPacket::read_from_socket` (packet.rs 40-98) minus the socket:
read the VarInt frame length, take exactly that many bytes (a shortfall is
the `read_exact(..).unwrap()` panic), with a positive threshold read the
VarInt `data_len` and decompress the remainder when
`data_len >= threshold`, then read the VarInt packet id from the resulting
buffer.  Returns the id, the remaining packet data, and the unread rest of
the stream.  `decompress` stands for the flate2 zlib decoder, whose failure
becomes the decompression `PacketError`. -/
def readFrame (decompress : List Nat → Option (List Nat)) (threshold : Int)
    (stream : List Nat) : Option (Except String (Nat × List Nat × List Nat)) :=
  let lenRest := readWireLen stream
  let len := lenRest.1
  let s1 := lenRest.2
  if s1.length < len then none
  else
    let data := s1.take len
    let restStream := s1.drop len
    if threshold > 0 then
      match readVarint data with
      | none => none
      | some (ul, d2) =>
        if (ul : Int) ≥ threshold then
          match decompress d2 with
          | none => some (.error "Error decompressing packet")
          | some dec =>
            match readVarint dec with
            | none => none
            | some (id, bodyRest) => some (.ok (id, bodyRest, restStream))
        else
          match readVarint d2 with
          | none => none
          | some (id, bodyRest) => some (.ok (id, bodyRest, restStream))
    else
      match readVarint data with
      | none => none
      | some (id, bodyRest) => some (.ok (id, bodyRest, restStream))

/-- The raw-payload tail of the receive procedure: read the VarInt id from
`p`; what remains is the packet body, and `extra` is the unread stream. -/
def rawTail (p extra : List Nat) : Option (Except String (Nat × List Nat × List Nat)) :=
  match readVarint p with
  | none => none
  | some (id, bodyRest) => some (.ok (id, bodyRest, extra))

/-- The decompressing tail of the receive procedure: inflate `p`, then read
the VarInt id from the result. -/
def inflateTail (decompress : List Nat → Option (List Nat)) (p extra : List Nat) :
    Option (Except String (Nat × List Nat × List Nat)) :=
  match decompress p with
  | none => some (.error "Error decompressing packet")
  | some dec => rawTail dec extra

/-- One property of `LoginSuccessPacket` (login.rs 108-113). -/
structure LoginSuccessProperty where
  name : List Nat
  value : List Nat
  signature : Option (List Nat)
deriving Repr, DecidableEq

/-- `LoginSuccessPacket` (login.rs 101-106); the uuid is the u128. -/
structure LoginSuccessPacketM where
  uuid : Nat
  username : List Nat
  properties : List LoginSuccessProperty
deriving Repr, DecidableEq

/-- Property loop of `From<RawPacket> for LoginSuccessPacket`
(login.rs 121-136). -/
def readProperties : Nat → List Nat → Option (List LoginSuccessProperty × List Nat)
  | 0, d => some ([], d)
  | n + 1, d => do
    let (name, d) ← readString d
    let (value, d) ← readString d
    let (hasSig, d) ← readBool d
    let (signature, d) ←
      if hasSig then (readString d).map (fun sd => (some sd.1, sd.2))
      else some (none, d)
    let (props, d) ← readProperties n d
    some (⟨name, value, signature⟩ :: props, d)

/-- `impl From<RawPacket> for LoginSuccessPacket` (login.rs 115-144):
uuid as `read_ulong() as u128 | (read_ulong() as u128) << 64`, username,
then the VarInt-counted property list. -/
def loginSuccessFrom (data : List Nat) : Option (LoginSuccessPacketM × List Nat) := do
  let (l1, d) ← readUlong data
  let (l2, d) ← readUlong d
  let uuid := l1 ||| (l2 <<< 64)
  let (username, d) ← readString d
  let (plen, d) ← readVarint d
  let (props, d) ← readProperties plen d
  some (⟨uuid, username, props⟩, d)

/-- `NBTType` (nbt.rs 11-25).  Floats and doubles are kept as their bit
patterns; the `Compound` map is kept as the association list in insertion
order. -/
inductive NBT where
  | tEnd : NBT
  | tByte : Int → NBT
  | tShort : Int → NBT
  | tInt : Int → NBT
  | tLong : Int → NBT
  | tFloat : Nat → NBT
  | tDouble : Nat → NBT
  | tByteArray : List Int → NBT
  | tString : List Nat → NBT
  | tList : List NBT → NBT
  | tCompound : List (List Nat × NBT) → NBT
  | tIntArray : List Int → NBT
  | tLongArray : List Int → NBT

/-- `HashMap::insert` on the association-list rendering of the compound:
replace the binding of an existing key, else append. -/
def assocInsert (k : List Nat) (v : NBT) : List (List Nat × NBT) → List (List Nat × NBT)
  | [] => [(k, v)]
  | (k0, v0) :: rest =>
    if k0 = k then (k, v) :: rest else (k0, v0) :: assocInsert k v rest

/-- Byte-array element loop of `from_packet_raw` tag 0x07
(nbt.rs 76-83). -/
def readI8s : Nat → List Nat → Option (List Int × List Nat)
  | 0, d => some ([], d)
  | n + 1, d => do
    let (b, d) ← readByte d
    let (vs, d) ← readI8s n d
    some (toI8 b :: vs, d)

/-- Int-array element loop of `from_packet_raw` tag 0x0B
(nbt.rs 108-115). -/
def readI32s : Nat → List Nat → Option (List Int × List Nat)
  | 0, d => some ([], d)
  | n + 1, d => do
    let (v, d) ← readInt d
    let (vs, d) ← readI32s n d
    some (v :: vs, d)

/-- Long-array element loop of `from_packet_raw` tag 0x0C
(nbt.rs 116-123). -/
def readI64s : Nat → List Nat → Option (List Int × List Nat)
  | 0, d => some ([], d)
  | n + 1, d => do
    let (v, d) ← readLong d
    let (vs, d) ← readI64s n d
    some (v :: vs, d)

/-- Iteration count of a Rust `for _ in 0..length` over an `i32` length:
zero when the length is negative. -/
def natCount (n : Int) : Nat := if n < 0 then 0 else n.toNat

/-- Lift a plain reader result into the `Result<NBTType, String>` shape. -/
def okMap {α : Type} (f : α → NBT × List Nat) (o : Option α) :
    Option (Except String (NBT × List Nat)) :=
  o.map (fun a => .ok (f a))

mutual

/-- `NBTType::from_packet_raw` (nbt.rs 67-126).  `fuel` bounds the nesting
depth of the recursion (the Rust recursion terminates on any finite input;
exhausted fuel is the artefact value `none`, never reached in the proofs
below, which use an explicit successor).  The unknown-tag arm is the only
`Err` in the function. -/
def nbtRaw : Nat → List Nat → Nat → Option (Except String (NBT × List Nat))
  | 0, _, _ => none
  | fuel + 1, data, t =>
    if t = 0x00 then some (.ok (.tEnd, data))
    else if t = 0x01 then okMap (fun bd => (.tByte (toI8 bd.1), bd.2)) (readByte data)
    else if t = 0x02 then okMap (fun vd => (.tShort vd.1, vd.2)) (readShort data)
    else if t = 0x03 then okMap (fun vd => (.tInt vd.1, vd.2)) (readInt data)
    else if t = 0x04 then okMap (fun vd => (.tLong vd.1, vd.2)) (readLong data)
    else if t = 0x05 then okMap (fun vd => (.tFloat vd.1, vd.2)) (readFloatBits data)
    else if t = 0x06 then okMap (fun vd => (.tDouble vd.1, vd.2)) (readDoubleBits data)
    else if t = 0x07 then
      match readInt data with
      | none => none
      | some (len, d) => okMap (fun vd => (.tByteArray vd.1, vd.2)) (readI8s (natCount len) d)
    else if t = 0x08 then okMap (fun vd => (.tString vd.1, vd.2)) (readStringUshort data)
    else if t = 0x09 then
      match readByte data with
      | none => none
      | some (itemT, d1) =>
        match readInt d1 with
        | none => none
        | some (len, d2) =>
          match nbtList fuel itemT (natCount len) d2 with
          | none => none
          | some (.error e) => some (.error e)
          | some (.ok (vs, d3)) => some (.ok (.tList vs, d3))
    else if t = 0x0A then
      match nbtCompound fuel [] data with
      | none => none
      | some (.error e) => some (.error e)
      | some (.ok (entries, d1)) => some (.ok (.tCompound entries, d1))
    else if t = 0x0B then
      match readInt data with
      | none => none
      | some (len, d) => okMap (fun vd => (.tIntArray vd.1, vd.2)) (readI32s (natCount len) d)
    else if t = 0x0C then
      match readInt data with
      | none => none
      | some (len, d) => okMap (fun vd => (.tLongArray vd.1, vd.2)) (readI64s (natCount len) d)
    else some (.error ("Unknown NBT type: " ++ toString t))
  termination_by fuel _ _ => (fuel, 0)

/-- List-element loop of `from_packet_raw` tag 0x09 (nbt.rs 85-93): `n`
payloads of the item type, no per-element tag or name. -/
def nbtList : Nat → Nat → Nat → List Nat → Option (Except String (List NBT × List Nat))
  | _, _, 0, d => some (.ok ([], d))
  | fuel, itemT, n + 1, d =>
    match nbtRaw fuel d itemT with
    | none => none
    | some (.error e) => some (.error e)
    | some (.ok (v, d1)) =>
      match nbtList fuel itemT n d1 with
      | none => none
      | some (.error e) => some (.error e)
      | some (.ok (vs, d2)) => some (.ok (v :: vs, d2))
  termination_by fuel _ n _ => (fuel, n + 1)

/-- Compound entry loop of `from_packet_raw` tag 0x0A (nbt.rs 94-107):
read a tag byte, stop on 0x00, otherwise read the ushort-prefixed name and
the payload and insert the binding.  One unit of fuel per iteration (the
Rust loop consumes at least one byte per iteration). -/
def nbtCompound : Nat → List (List Nat × NBT) → List Nat →
    Option (Except String (List (List Nat × NBT) × List Nat))
  | 0, _, _ => none
  | fuel + 1, acc, data =>
    match readByte data with
    | none => none
    | some (t, d1) =>
      if t = 0x00 then some (.ok (acc, d1))
      else
        match readStringUshort d1 with
        | none => none
        | some (name, d2) =>
          match nbtRaw fuel d2 t with
          | none => none
          | some (.error e) => some (.error e)
          | some (.ok (v, d3)) => nbtCompound fuel (assocInsert name v acc) d3
  termination_by fuel _ _ => (fuel, 0)

end

/-- `NBTType::from_packet` (nbt.rs 42-46): tag byte, discarded
ushort-prefixed name, then the payload. -/
def nbtFromPacket (fuel : Nat) (data : List Nat) :
    Option (Except String (NBT × List Nat)) := do
  let (t, d1) ← readByte data
  let (_, d2) ← readStringUshort d1
  nbtRaw fuel d2 t

/-- `ConnectionState` (lib.rs 41-46). -/
inductive ConnState where
  | handshake
  | status
  | login
  | play
deriving Repr, DecidableEq

/-- The socket state the protocol-phase handlers touch, out of
`RawMinecraftSocket` (lib.rs 18-26). -/
structure MSocket where
  state : ConnState
  compressionThreshold : Int
  uuid : Nat
deriving Repr, DecidableEq

/-- A parsed packet: id plus remaining data (packet.rs 17-20). -/
structure PacketM where
  id : Int
  data : List Nat
deriving Repr, DecidableEq

/-- `HandlerError` (handler.rs 11-16); the IO variant is never produced by
the three protocol-phase handlers. -/
inductive HandlerErr where
  | badState
  | exitRequested
deriving Repr, DecidableEq

/-- `PacketError` (lib.rs 240-244). -/
structure PacketErrorM where
  translate : String
  withArgs : List String
deriving Repr, DecidableEq

/-- The `Debug` rendering of a `HandlerError`, as interpolated by
`format!("Handler error: {:?}", e)` in `PacketHandlerManager::handle`. -/
def handlerErrName : HandlerErr → String
  | .badState => "BadState"
  | .exitRequested => "ExitRequested"

/-- The `PacketError` built from a handler error (handler.rs 59, 65). -/
def handlerPacketError (e : HandlerErr) : PacketErrorM :=
  ⟨"Handler error: " ++ handlerErrName e, []⟩

/-- The `PacketError` for an unhandled id with no fallback handler
(handler.rs 68). -/
def noFallbackError : PacketErrorM :=
  ⟨"No fallback handler found for packet", []⟩

/-- `Location::zero()` placeholder decoded for a present death location
(login.rs 72-76; the real coordinates are a TODO in the source). -/
structure LocationM where
  zero : Unit
deriving Repr, DecidableEq

/-- `LoginPlayPacket` (login.rs 27-47). -/
structure LoginPlayPacketM where
  id : Int
  isHardcore : Bool
  gamemode : Nat
  previousGamemode : Int
  dimensionCount : Nat
  dimensionNames : List (List Nat)
  nbtRegistryCodec : NBT
  dimensionType : List Nat
  dimensionName : List Nat
  hashedSeed : Nat
  maxPlayers : Nat
  viewDistance : Nat
  simulationDistance : Nat
  reducedDebugInfo : Bool
  enableRespawnScreen : Bool
  isDebug : Bool
  isFlat : Bool
  deathLocation : Option LocationM

/-- Dimension-name loop of `From<RawPacket> for LoginPlayPacket`
(login.rs 56-59). -/
def readStringsN : Nat → List Nat → Option (List (List Nat) × List Nat)
  | 0, d => some ([], d)
  | n + 1, d => do
    let (s, d) ← readString d
    let (ss, d) ← readStringsN n d
    some (s :: ss, d)

/-- Final fields of `From<RawPacket> for LoginPlayPacket` (login.rs 66-77):
view/simulation distance, the five flags and the optional death location.
Split from `loginPlayFrom` only to keep elaboration small; the reads are
the source's, in order. -/
def loginPlayFlags (mk : Nat → Nat → Bool → Bool → Bool → Bool → Option LocationM →
    LoginPlayPacketM) (d : List Nat) : Option (LoginPlayPacketM × List Nat) := do
  let rVd ← readVarint d
  let rSd ← readVarint rVd.2
  let rRd ← readBool rSd.2
  let rRs ← readBool rRd.2
  let rIdb ← readBool rRs.2
  let rIf ← readBool rIdb.2
  let rHd ← readBool rIf.2
  let death : Option LocationM := if rHd.1 then some ⟨()⟩ else none
  some (mk rVd.1 rSd.1 rRd.1 rRs.1 rIdb.1 rIf.1 death, rHd.2)

/-- Middle fields of `From<RawPacket> for LoginPlayPacket` (login.rs 62-65):
dimension type and name, hashed seed, max players. -/
def loginPlayMid (mk : List Nat → List Nat → Nat → Nat →
    (Nat → Nat → Bool → Bool → Bool → Bool → Option LocationM → LoginPlayPacketM))
    (d : List Nat) : Option (LoginPlayPacketM × List Nat) := do
  let rDt ← readString d
  let rDm ← readString rDt.2
  let rSeed ← readUlong rDm.2
  let rMp ← readVarint rSeed.2
  loginPlayFlags (mk rDt.1 rDm.1 rSeed.1 rMp.1) rMp.2

/-- `impl From<RawPacket> for LoginPlayPacket` (login.rs 49-99).  The NBT
fuel is a termination bound of the embedding; the nesting depth of any
parse is below the buffer length, so `d.length + 1` never exhausts. -/
def loginPlayFrom (data : List Nat) : Option (LoginPlayPacketM × List Nat) := do
  let rId ← readInt data
  let rHc ← readBool rId.2
  let rGm ← readByte rHc.2
  let rPg ← readByte rGm.2
  let rDc ← readVarint rPg.2
  let rDn ← readStringsN rDc.1 rDc.2
  let codecRes ← nbtFromPacket (rDn.2.length + 1) rDn.2
  match codecRes with
  | .error _ => none
  | .ok (codec, d) =>
    loginPlayMid
      (fun dt dm seed mp vd sd rd rs idb ifl death =>
        ⟨rId.1, rHc.1, rGm.1, toI8 rPg.1, rDc.1, rDn.1, codec,
         dt, dm, seed, mp, vd, sd, rd, rs, idb, ifl, death⟩) d

/-- `SetCompressionHandler::handle` (handler.rs 80-95): reject outside
Login, else set the threshold from the VarInt body. -/
def setCompressionHandler (c : MSocket) (p : PacketM) :
    Option (Except HandlerErr MSocket) :=
  if c.state ≠ .login then some (.error .badState)
  else
    match readVarint p.data with
    | none => none
    | some (t, _) => some (.ok { c with compressionThreshold := (t : Int) })

/-- `LoginSuccessHandler::handle` (handler.rs 100-117): reject outside
Login, else decode the packet, move to Play and record the uuid. -/
def loginSuccessHandler (c : MSocket) (p : PacketM) :
    Option (Except HandlerErr MSocket) :=
  if c.state ≠ .login then some (.error .badState)
  else
    match loginSuccessFrom p.data with
    | none => none
    | some (pkt, _) => some (.ok { c with state := .play, uuid := pkt.uuid })

/-- `LoginPlayHandler::handle` (handler.rs 122-142): reject outside Play,
else decode the join-game packet and signal `ExitRequested`. -/
def loginPlayHandler (c : MSocket) (p : PacketM) :
    Option (Except HandlerErr MSocket) :=
  if c.state ≠ .play then some (.error .badState)
  else
    match loginPlayFrom p.data with
    | none => none
    | some _ => some (.error .exitRequested)

/-- Map a handler result through
`map_err(|e| PacketError::text(format!("Handler error: {:?}", e)))`
(handler.rs 59, 65). -/
def liftHandler (r : Option (Except HandlerErr MSocket)) :
    Option (Except PacketErrorM MSocket) :=
  r.map (fun x => x.mapError handlerPacketError)

/-- `PacketHandlerManager::handle` (handler.rs 56-72) with the three
protocol-phase handlers of `RawMinecraftSocket::login` (lib.rs 115-117)
registered (ids 0x03, 0x02, 0x25 keyed in the `BTreeMap`) and no fallback
handler: dispatch on the packet id, and with no binding and no fallback
return the no-fallback error. -/
def managerHandle (c : MSocket) (p : PacketM) :
    Option (Except PacketErrorM MSocket) :=
  if p.id = 0x03 then liftHandler (setCompressionHandler c p)
  else if p.id = 0x02 then liftHandler (loginSuccessHandler c p)
  else if p.id = 0x25 then liftHandler (loginPlayHandler c p)
  else some (.error noFallbackError)

/-- The 16 uuid bytes used in the concrete uuid evaluations: first
unsigned long 1, second unsigned long 2. -/
def uuidBytes : List Nat := [0, 0, 0, 0, 0, 0, 0, 1, 0, 0, 0, 0, 0, 0, 0, 2]

/-- Phase of one thread spawned by `ClientEventDispatcher::dispatch_all`
(events/mod.rs 101-104), each running `dispatch` (events/mod.rs 108-132).
The phases split `dispatch` at its lock boundaries: `start` is before
line 110; `clonedPers` holds the clone of `handlers` taken under its
mutex (line 110); `clonedBoth` additionally holds the clone of
`handlers_once` taken under its mutex (line 111); `invokedPh` is after
the two lock-free invocation loops (lines 117-128) have run; `donePh` is
after the once bucket for the thread's tag was removed under the write
lock (line 131).  The registered subscriber maps are flattened to
(tag, token) lists as before. -/
inductive TaskPhase where
  | start : TaskPhase
  | clonedPers : List (Nat × Nat) → TaskPhase
  | clonedBoth : List (Nat × Nat) → List (Nat × Nat) → TaskPhase
  | invokedPh : TaskPhase
  | donePh : TaskPhase
deriving Repr, DecidableEq

/-- One spawned `dispatch` thread: the tag of its event and its phase. -/
structure CTask where
  tag : Nat
  phase : TaskPhase
deriving Repr, DecidableEq

/-- Shared dispatcher state during a `dispatch_all` fan-out, plus the
spawned threads and the two invocation logs (tokens invoked through the
persistent and through the once collection, in order). -/
structure CState where
  persistent : List (Nat × Nat)
  oncehs : List (Nat × Nat)
  plog : List Nat
  olog : List Nat
  tasks : List CTask
deriving Repr, DecidableEq

/-- One atomic step of one `dispatch` thread.  Every step performs what
the source does within at most one lock acquisition (the invocation loops
run lock-free and are taken back to back here, which is one of their
legal schedules), so every trace of this model is a schedule the spawned
threads can exhibit. -/
def taskStep (s : CState) (t : CTask) : CState × CTask :=
  match t.phase with
  | .start => (s, ⟨t.tag, .clonedPers s.persistent⟩)
  | .clonedPers pers => (s, ⟨t.tag, .clonedBoth pers s.oncehs⟩)
  | .clonedBoth pers onc =>
      ({ s with
         plog := s.plog ++ (pers.filter (fun p => p.1 = t.tag)).map (fun p => p.2)
         olog := s.olog ++ (onc.filter (fun p => p.1 = t.tag)).map (fun p => p.2) },
       ⟨t.tag, .invokedPh⟩)
  | .invokedPh =>
      ({ s with oncehs := s.oncehs.filter (fun p => ¬ p.1 = t.tag) }, ⟨t.tag, .donePh⟩)
  | .donePh => (s, t)

/-- Scheduler step: advance the thread at index `i` by one atomic step. -/
def cstep (s : CState) (i : Nat) : CState :=
  match s.tasks.get? i with
  | none => s
  | some t =>
    let r := taskStep s t
    { r.1 with tasks := s.tasks.set i r.2 }

/-- Run a schedule (a sequence of thread indices). -/
def crun (sched : List Nat) (s : CState) : CState := sched.foldl cstep s

/-- The spec one-shot scenario at the moment `dispatch_all` has drained
the two queued same-type events and spawned their threads: a once
subscriber (token 0) and a persistent subscriber (token 1) registered for
tag 5, two tag-5 dispatch threads still at `start`. -/
def raceInit : CState :=
  ⟨[(5, 1)], [(5, 0)], [], [], [⟨5, .start⟩, ⟨5, .start⟩]⟩

/-- The racy schedule: both threads take their clones of `handlers` and
`handlers_once` before either reaches the bucket removal. -/
def raceSched : List Nat := [0, 0, 1, 1, 0, 1, 0, 1]

/-- Disjoint bit ranges make bitwise or into addition: or-ing a value
below `2 ^ i` with a value shifted left by `i`. -/
theorem lor_shift_add (a x i : Nat) (h : a < 2 ^ i) : a ||| (x <<< i) = a + x * 2 ^ i := by
  apply Nat.eq_of_testBit_eq
  intro j
  rw [Nat.testBit_lor, Nat.testBit_shiftLeft]
  have hadd : a + x * 2 ^ i = 2 ^ i * x + a := by ring
  rw [hadd, Nat.testBit_mul_pow_two_add x h j]
  rcases lt_or_ge j i with hj | hj
  · have h1 : ¬ i ≤ j := by omega
    simp [hj, h1]
  · have h2 : ¬ j < i := by omega
    have ha : a.testBit j = false := by
      apply Nat.testBit_eq_false_of_lt
      exact lt_of_lt_of_le h (Nat.pow_le_pow_right (by omega) hj)
    simp [hj, h2, ha]

/-- The `read_varint` loop undoes `write_varint` as long as the encoded
value needs at most the `4 - i` remaining iterations. -/
theorem rvGo_writeVarint : ∀ u i acc rest, u < 2 ^ (7 * (4 - i)) → acc < 2 ^ (7 * i) → i ≤ 3 →
    rvGo (3 - i) i acc (writeVarint u ++ rest) = some (acc + u * 2 ^ (7 * i), rest) := by
  intro u
  induction u using Nat.strong_induction_on with
  | _ u ih =>
    intro i acc rest hu hacc hi
    rw [writeVarint]
    by_cases h : u < 128
    · rw [dif_pos h]
      have hmod : u % 256 = u := Nat.mod_eq_of_lt (by omega)
      have hmod2 : u % 128 = u := Nat.mod_eq_of_lt h
      have hval : acc ||| ((u % 128) <<< (7 * i)) = acc + u * 2 ^ (7 * i) := by
        rw [hmod2, lor_shift_add _ _ _ hacc]
      rcases Nat.eq_zero_or_eq_succ_pred (3 - i) with hk | hk <;> rw [hk]
      · simp only [List.cons_append, List.nil_append, rvGo, hval]
        rfl
      · simp only [List.cons_append, List.nil_append, rvGo, hmod, h, if_pos, hval]
        rfl
    · rw [dif_neg h]
      have hi3 : i < 3 := by
        rcases Nat.lt_or_ge i 3 with hlt | hge
        · exact hlt
        · have hieq : i = 3 := by omega
          subst hieq
          norm_num at hu
          omega
      have hk : 3 - i = (2 - i) + 1 := by omega
      rw [hk]
      have hcond : ¬ ((u % 128 + 128) % 256 < 128) := by
        have : (u % 128 + 128) % 256 = u % 128 + 128 := Nat.mod_eq_of_lt (by omega)
        omega
      simp only [List.cons_append, rvGo, if_neg hcond]
      have hbm : (u % 128 + 128) % 128 = u % 128 := by omega
      rw [hbm, lor_shift_add _ _ _ hacc]
      have h21 : 2 - i = 3 - (i + 1) := by omega
      rw [h21, List.append_eq]
      have hrec := ih (u / 128) (Nat.div_lt_self (by omega) (by omega)) (i + 1)
        (acc + u % 128 * 2 ^ (7 * i)) rest
        (by
          have h4 : 7 * (4 - i) = 7 * (3 - i) + 7 := by omega
          rw [h4, pow_add] at hu
          rw [Nat.div_lt_iff_lt_mul (by omega : (0:Nat) < 128)]
          have h5 : 7 * (4 - (i + 1)) = 7 * (3 - i) := by omega
          rw [h5]
          have h7 : (2:Nat) ^ 7 = 128 := by norm_num
          rw [h7] at hu
          omega)
        (by
          have h6 : 7 * (i + 1) = 7 * i + 7 := by omega
          rw [h6, pow_add]
          have hlt : u % 128 < 128 := Nat.mod_lt _ (by omega)
          have h7 : (2:Nat) ^ 7 = 128 := by norm_num
          rw [h7]
          nlinarith)
        (by omega)
      rw [hrec]
      simp only [Option.some.injEq, Prod.mk.injEq, and_true]
      have h6 : 7 * (i + 1) = 7 * i + 7 := by omega
      rw [h6, pow_add]
      have hdm : 128 * (u / 128) + u % 128 = u := Nat.div_add_mod u 128
      have h7 : (2:Nat) ^ 7 = 128 := by norm_num
      rw [h7]
      conv_rhs => rw [← hdm]
      ring

/-- `read_varint` after `write_varint` on a value whose pattern fits in 28
bits: the value comes back and exactly the written bytes are consumed. -/
theorem readVarint_writeVarint (u : Nat) (rest : List Nat) (h : u < 2 ^ 28) :
    readVarint (writeVarint u ++ rest) = some (u, rest) := by
  have := rvGo_writeVarint u 0 0 rest (by norm_num; omega) (by norm_num) (by norm_num)
  simpa [readVarint] using this

/-- The frame-length loop of `read_from_socket` undoes `write_varint` the
same way (the stream holds every byte the writer emitted, so the stale-byte
fallback is never taken). -/
theorem rwlGo_writeVarint : ∀ u i acc pb rest,
    u < 2 ^ (7 * (4 - i)) → acc < 2 ^ (7 * i) → i ≤ 3 →
    readWireLenGo (3 - i) i acc pb (writeVarint u ++ rest) = (acc + u * 2 ^ (7 * i), rest) := by
  intro u
  induction u using Nat.strong_induction_on with
  | _ u ih =>
    intro i acc pb rest hu hacc hi
    rw [writeVarint]
    by_cases h : u < 128
    · rw [dif_pos h]
      have hmod : u % 256 = u := Nat.mod_eq_of_lt (by omega)
      have hmod2 : u % 128 = u := Nat.mod_eq_of_lt h
      have hval : acc ||| ((u % 128) <<< (7 * i)) = acc + u * 2 ^ (7 * i) := by
        rw [hmod2, lor_shift_add _ _ _ hacc]
      rcases Nat.eq_zero_or_eq_succ_pred (3 - i) with hk | hk <;> rw [hk]
      · simp only [List.cons_append, List.nil_append, readWireLenGo, List.headD_cons, List.tail_cons, hval]
      · simp only [List.cons_append, List.nil_append, readWireLenGo, List.headD_cons, List.tail_cons, hmod, h, if_pos, hval]
    · rw [dif_neg h]
      have hi3 : i < 3 := by
        rcases Nat.lt_or_ge i 3 with hlt | hge
        · exact hlt
        · have hieq : i = 3 := by omega
          subst hieq
          norm_num at hu
          omega
      have hk : 3 - i = (2 - i) + 1 := by omega
      rw [hk]
      have hcond : ¬ ((u % 128 + 128) % 256 < 128) := by
        have : (u % 128 + 128) % 256 = u % 128 + 128 := Nat.mod_eq_of_lt (by omega)
        omega
      simp only [List.cons_append, readWireLenGo, List.headD_cons, List.tail_cons, if_neg hcond]
      have hbm : (u % 128 + 128) % 128 = u % 128 := by omega
      rw [hbm, lor_shift_add _ _ _ hacc]
      have h21 : 2 - i = 3 - (i + 1) := by omega
      rw [h21]
      have hrec := ih (u / 128) (Nat.div_lt_self (by omega) (by omega)) (i + 1)
        (acc + u % 128 * 2 ^ (7 * i)) (u % 128 + 128) rest
        (by
          have h4 : 7 * (4 - i) = 7 * (3 - i) + 7 := by omega
          rw [h4, pow_add] at hu
          rw [Nat.div_lt_iff_lt_mul (by omega : (0:Nat) < 128)]
          have h5 : 7 * (4 - (i + 1)) = 7 * (3 - i) := by omega
          rw [h5]
          have h7 : (2:Nat) ^ 7 = 128 := by norm_num
          rw [h7] at hu
          omega)
        (by
          have h6 : 7 * (i + 1) = 7 * i + 7 := by omega
          rw [h6, pow_add]
          have hlt : u % 128 < 128 := Nat.mod_lt _ (by omega)
          have h7 : (2:Nat) ^ 7 = 128 := by norm_num
          rw [h7]
          nlinarith)
        (by omega)
      rw [hrec]
      simp only [Prod.mk.injEq, and_true]
      have h6 : 7 * (i + 1) = 7 * i + 7 := by omega
      rw [h6, pow_add]
      have hdm : 128 * (u / 128) + u % 128 = u := Nat.div_add_mod u 128
      have h7 : (2:Nat) ^ 7 = 128 := by norm_num
      rw [h7]
      conv_rhs => rw [← hdm]
      ring

/-- Frame-length read after `write_varint` of a value fitting 28 bits. -/
theorem readWireLen_writeVarint (u : Nat) (rest : List Nat) (h : u < 2 ^ 28) :
    readWireLen (writeVarint u ++ rest) = (u, rest) := by
  have := rwlGo_writeVarint u 0 0 0 rest (by norm_num; omega) (by norm_num) (by norm_num)
  simpa [readWireLen] using this

/-- `write_varint` emits at most `k` bytes for a value below `2 ^ (7 k)`. -/
theorem writeVarint_length_le : ∀ k, 0 < k → ∀ u, u < 2 ^ (7 * k) → (writeVarint u).length ≤ k := by
  intro k
  induction k with
  | zero => omega
  | succ k ihk =>
    intro _ u hu
    rw [writeVarint]
    by_cases h : u < 128
    · rw [dif_pos h]
      simp
    · rw [dif_neg h]
      simp only [List.length_cons]
      have hk : 0 < k := by
        by_contra hk0
        have hk1 : k = 0 := by omega
        subst hk1
        norm_num at hu
        omega
      have hrec : (writeVarint (u / 128)).length ≤ k := by
        apply ihk hk
        rw [Nat.div_lt_iff_lt_mul (by omega : (0:Nat) < 128)]
        have h6 : 7 * (k + 1) = 7 * k + 7 := by omega
        rw [h6, pow_add] at hu
        have h7 : (2:Nat) ^ 7 = 128 := by norm_num
        rw [h7] at hu
        omega
      omega

/-- Unfolding of `write_varint` on a final (single-byte) value. -/
theorem writeVarint_lt (u : Nat) (h : u < 128) : writeVarint u = [u] := by
  rw [writeVarint]
  exact dif_pos h

/-- Unfolding of `write_varint` on a value with a continuation byte. -/
theorem writeVarint_ge (u : Nat) (h : ¬ u < 128) :
    writeVarint u = (u % 128 + 128) :: writeVarint (u / 128) := by
  rw [writeVarint]
  exact dif_neg h

/-- `write_varint(-1)` emits the five bytes FF FF FF FF 0F. -/
theorem writeVarintI_neg_one : writeVarintI (-1) = [255, 255, 255, 255, 15] := by
  have h0 : toU32 (-1) = 4294967295 := by decide
  rw [writeVarintI, h0]
  rw [writeVarint_ge _ (by norm_num)]
  norm_num
  rw [writeVarint_ge _ (by norm_num)]
  norm_num
  rw [writeVarint_ge _ (by norm_num)]
  norm_num
  rw [writeVarint_ge _ (by norm_num)]
  norm_num
  rw [writeVarint_lt _ (by norm_num)]

/-- C1: the claim says `read_varint(write_varint(n))` returns `n` for every
signed 32-bit `n`, the reader accepting up to 5 bytes.  The code is wrong:
the reader loop runs at most 4 iterations (`for i in 0..4`,
packet.rs 193), so on the 5-byte encoding of -1 it stops after 4 bytes,
returns 0x0FFFFFFF instead of -1 and leaves the fifth byte 0x0F in the
buffer.  The spec itself flags this reader cap as a defect (section 9). -/
theorem c1_varint_read_cap :
    writeVarintI (-1) = [255, 255, 255, 255, 15] ∧
    readVarint (writeVarintI (-1)) = some (268435455, [15]) ∧
    toI32 268435455 ≠ (-1 : Int) := by
  refine ⟨writeVarintI_neg_one, ?_, by decide⟩
  rw [writeVarintI_neg_one]
  decide

/-- The `try_read_varint` loop returns `None` only at the emptiness test,
so the buffer it leaves behind is empty. -/
theorem trvGo_none_drained :
    ∀ data k i acc, (trvGo k i acc data).1 = none → (trvGo k i acc data).2 = [] := by
  intro data
  induction data with
  | nil => intro k i acc _; cases k <;> rfl
  | cons b rest ih =>
    intro k i acc hnone
    cases k with
    | zero => simp [trvGo] at hnone
    | succ k =>
      by_cases hb : b % 256 < 128
      · simp [trvGo, hb] at hnone
      · simp only [trvGo, if_neg hb] at hnone ⊢
        exact ih _ _ _ hnone

/-- The byte loop of `try_read_string` returns `None` only at the
emptiness test, so the buffer it leaves behind is empty. -/
theorem tryReadChars_none_drained :
    ∀ n d, (tryReadChars n d).1 = none → (tryReadChars n d).2 = [] := by
  intro n
  induction n with
  | zero => intro d h; simp [tryReadChars] at h
  | succ n ih =>
    intro d h
    cases d with
    | nil => rfl
    | cons b rest =>
      simp only [tryReadChars] at h ⊢
      rcases hrec : tryReadChars n rest with ⟨o, d2⟩
      rcases o with _ | s
      · have h2 := ih rest
        rw [hrec] at h2
        exact h2 rfl
      · rw [hrec] at h
        exact Option.noConfusion h

/-- C7 as amended: when `try_read_varint` or `try_read_string` returns the
absence marker, the buffer has been fully drained, i.e. is left empty -
the bytes examined before the shortfall are consumed, not restored.  (The
buffer is unchanged only in the trivial case where it was already
empty.) -/
theorem c7_tryread_amended (data : List Nat) :
    ((tryReadVarint data).1 = none → (tryReadVarint data).2 = []) ∧
    ((tryReadString data).1 = none → (tryReadString data).2 = []) := by
  constructor
  · exact trvGo_none_drained data 3 0 0
  · intro h
    rw [tryReadString] at h ⊢
    rcases htv : tryReadVarint data with ⟨o, d2⟩
    rcases o with _ | len
    · have h2 := trvGo_none_drained data 3 0 0
      rw [show trvGo 3 0 0 data = tryReadVarint data from rfl, htv] at h2
      exact h2 rfl
    · rw [htv] at h
      exact tryReadChars_none_drained len d2 h

/-- C7 counterexample: the claim says a `None` return leaves the buffer
unchanged.  On buffer `[0x80]`, `try_read_varint` consumes the byte (it
has its continuation bit set), hits the emptiness test and returns `None`
with the buffer empty, not `[0x80]`; on `[0x02, 0x41]`, `try_read_string`
reads the length 2 and one body byte before returning `None` with the
buffer empty. -/
theorem c7_tryread_counterexample :
    (tryReadVarint [128]).1 = none ∧ (tryReadVarint [128]).2 = [] ∧
    ([] : List Nat) ≠ [128] ∧
    (tryReadString [2, 65]).1 = none ∧ (tryReadString [2, 65]).2 = [] ∧
    ([] : List Nat) ≠ [2, 65] := by decide

/-- Witness for the amended C7 at the concrete buffers. -/
theorem c7_tryread_amended_witness :
    (tryReadVarint [128]).2 = [] ∧ (tryReadString [2, 65]).2 = [] :=
  ⟨(c7_tryread_amended [128]).1 (by decide), (c7_tryread_amended [2, 65]).2 (by decide)⟩

/-- `write_varint(0)` is the single byte 0. -/
theorem writeVarintI_zero : writeVarintI 0 = [0] := by
  rw [writeVarintI, show toU32 0 = 0 from by decide, writeVarint_lt _ (by norm_num)]

/-- C4 counterexample: with threshold 128, id 0, body `41 42`, the claim
says the wire frame is `03 00 00 41 42` (total_len = 3).  The code writes
`new_packet_len + 1` as the total length (lib.rs 161), emitting
`04 00 00 41 42`. -/
theorem c4_frame_counterexample :
    sendFrame (fun x => x) 128 0 [65, 66] = [4, 0, 0, 65, 66] ∧
    ([4, 0, 0, 65, 66] : List Nat) ≠ [3, 0, 0, 65, 66] := by
  refine ⟨?_, by decide⟩
  simp [sendFrame, writeVarintI_zero, writeVarint_lt]

/-- C4 as amended: the under-threshold frame for id 0, body `41 42` at
threshold 128 is `04 00 00 41 42` - total_len = 4, which is exactly the
one `data_len` byte plus the three raw id+body payload bytes, so
total_len covers data_len plus payload (the spec example `03 ...`
contradicts its own coverage rule; the code satisfies it). -/
theorem c4_frame_amended :
    sendFrame (fun x => x) 128 0 [65, 66] =
      writeVarint 4 ++ (writeVarint 0 ++ (writeVarintI 0 ++ [65, 66])) ∧
    (writeVarint 0 ++ (writeVarintI 0 ++ [65, 66])).length = 4 := by
  constructor
  · simp [sendFrame, writeVarintI_zero, writeVarint_lt]
  · simp [writeVarintI_zero, writeVarint_lt]

/-- ASCII code points are their own UTF-8 encoding. -/
theorem utf8Bytes_ascii : ∀ s : List Nat, (∀ c ∈ s, c < 128) → utf8Bytes s = s := by
  intro s
  induction s with
  | nil => intro _; rfl
  | cons c cs ih =>
    intro h
    have hc : c < 128 := h c (by simp)
    have hcs := ih (fun x hx => h x (by simp [hx]))
    simp only [utf8Bytes, List.map_cons, List.flatten_cons] at hcs ⊢
    rw [hcs, utf8Char, if_pos hc]
    rfl

/-- The byte loop of `read_string` returns exactly the next `n` bytes. -/
theorem readChars_append : ∀ s extra : List Nat, readChars s.length (s ++ extra) = some (s, extra) := by
  intro s
  induction s with
  | nil => intro extra; rfl
  | cons c cs ih =>
    intro extra
    simp only [List.length_cons, List.cons_append, readChars, List.append_eq, ih]
    rfl

/-- C5 as amended: `read_string(write_string(s)) = s` holds for ASCII
strings (every code point below 0x80) of byte length below `2 ^ 28`.  For
such strings every byte is its own code point, so the byte-as-char read
loop reproduces the string. -/
theorem c5_string_amended (s extra : List Nat) (h : ∀ c ∈ s, c < 128)
    (hlen : s.length < 2 ^ 28) :
    readString (writeString s ++ extra) = some (s, extra) := by
  rw [writeString, utf8Bytes_ascii s h]
  have hmod : s.length % 2 ^ 32 = s.length := Nat.mod_eq_of_lt (by
    have : (2:Nat) ^ 28 < 2 ^ 32 := by norm_num
    omega)
  rw [hmod, List.append_assoc, readString, readVarint_writeVarint _ _ hlen]
  exact readChars_append s extra

/-- C5 counterexample: the claim quantifies over every UTF-8 string.  For
the one-char string "é" (code point 0xE9, UTF-8 bytes C3 A9),
`write_string` emits the two UTF-8 bytes but `read_string` turns each byte
into its own char (`u8 as char`, packet.rs 226), returning the two-char
string "Ã©" instead. -/
theorem c5_string_counterexample :
    writeString [233] = [2, 195, 169] ∧
    readString (writeString [233]) = some ([195, 169], []) ∧
    ([195, 169] : List Nat) ≠ [233] := by
  have hw : writeString [233] = [2, 195, 169] := by
    rw [writeString]
    norm_num [utf8Bytes, utf8Char]
    rw [writeVarint_lt _ (by norm_num)]
    rfl
  refine ⟨hw, ?_, by decide⟩
  rw [hw]
  decide

/-- Witness for the amended C5 at the ASCII string "AB". -/
theorem c5_string_amended_witness :
    readString (writeString [65, 66] ++ []) = some ([65, 66], []) :=
  c5_string_amended [65, 66] [] (by decide) (by norm_num)

/-- Or-ing a value whose low byte is clear with a byte is addition. -/
theorem lor_low_byte (x b : Nat) (hx : x % 256 = 0) (hb : b < 256) : x ||| b = x + b := by
  have h1 : (x / 256) <<< 8 = x := by
    rw [Nat.shiftLeft_eq]
    have : x / 256 * 256 = x := Nat.div_mul_cancel (Nat.dvd_of_mod_eq_zero hx)
    simpa using this
  calc x ||| b = b ||| x := Nat.lor_comm x b
    _ = b ||| ((x / 256) <<< 8) := by rw [h1]
    _ = b + (x / 256) * 2 ^ 8 := lor_shift_add b (x / 256) 8 hb
    _ = x + b := by
        have : x / 256 * 256 = x := Nat.div_mul_cancel (Nat.dvd_of_mod_eq_zero hx)
        simp only [show (2:Nat) ^ 8 = 256 from by norm_num]
        omega

/-- The big-endian accumulator stays below `2 ^ 64` when fed u8 bytes. -/
theorem readBEGo_lt : ∀ k acc data res rest, acc < 2 ^ 64 → (∀ b ∈ data, b < 256) →
    readBEGo 64 k acc data = some (res, rest) → res < 2 ^ 64 := by
  intro k
  induction k with
  | zero =>
    intro acc data res rest hacc _ h
    simp only [readBEGo, Option.some.injEq, Prod.mk.injEq] at h
    omega
  | succ k ih =>
    intro acc data res rest hacc hb h
    cases data with
    | nil => simp [readBEGo] at h
    | cons b rest2 =>
      simp only [readBEGo] at h
      have hb0 : b < 256 := hb b (by simp)
      have hx : acc * 256 % 2 ^ 64 % 256 = 0 := by
        have hd : (256 : Nat) ∣ 2 ^ 64 := by norm_num
        rw [Nat.mod_mod_of_dvd _ hd]
        simp [Nat.mul_mod_left]
      have hlt : acc * 256 % 2 ^ 64 ||| b < 2 ^ 64 := by
        rw [lor_low_byte _ _ hx hb0]
        have h1 : acc * 256 % 2 ^ 64 < 2 ^ 64 := Nat.mod_lt _ (by norm_num)
        omega
      exact ih _ _ _ _ hlt (fun x hx2 => hb x (by simp [hx2])) h

/-- C6 as amended: the two UUID decoders agree.  Both `read_uuid`
(packet.rs 183-187) and the LoginSuccess decoder (login.rs 117) compute
`first_long | (second_long << 64)`, placing the FIRST 8-byte big-endian
long in the least-significant 64 bits; consequently they return the same
u128 for every input. -/
theorem c6_uuid_amended (data : List Nat) (hb : ∀ b ∈ data, b < 256)
    (u : Nat) (r : List Nat) (hu : readUuid data = some (u, r)) :
    (∀ p pr, loginSuccessFrom data = some (p, pr) → p.uuid = u) ∧
    (∀ l1 r1, readUlong data = some (l1, r1) → u % 2 ^ 64 = l1) := by
  rw [readUuid] at hu
  rcases h1 : readUlong data with _ | ⟨l1, d1⟩
  · simp only [h1] at hu
    exact Option.noConfusion hu
  · simp only [h1] at hu
    rcases h2 : readUlong d1 with _ | ⟨l2, d2⟩
    · simp only [h2] at hu
      exact Option.noConfusion hu
    · simp only [h2, Option.some.injEq, Prod.mk.injEq] at hu
      obtain ⟨huv, hur⟩ := hu
      have hl1 : l1 < 2 ^ 64 :=
        readBEGo_lt 8 0 data l1 d1 (by norm_num) hb h1
      have hval : l1 ||| (l2 <<< 64) = l1 + l2 * 2 ^ 64 := lor_shift_add l1 l2 64 hl1
      constructor
      · intro p pr hlp
        rw [loginSuccessFrom] at hlp
        simp only [h1, h2, Option.bind_eq_bind, Option.some_bind] at hlp
        rcases h3 : readString d2 with _ | ⟨un, d3⟩
        · simp only [h3, Option.none_bind] at hlp
          exact Option.noConfusion hlp
        · simp only [h3, Option.some_bind] at hlp
          rcases h4 : readVarint d3 with _ | ⟨plen, d4⟩
          · simp only [h4, Option.none_bind] at hlp
            exact Option.noConfusion hlp
          · simp only [h4, Option.some_bind] at hlp
            rcases h5 : readProperties plen d4 with _ | ⟨props, d5⟩
            · simp only [h5, Option.none_bind] at hlp
              exact Option.noConfusion hlp
            · simp only [h5, Option.some_bind, Option.some.injEq, Prod.mk.injEq] at hlp
              rw [← hlp.1]
              simp [← huv, hval]
      · intro l1x r1x h1x
        simp only [Option.some.injEq, Prod.mk.injEq] at h1x
        rw [← h1x.1, ← huv, hval]
        omega

/-- C6 counterexample: on the 16 bytes with first long 1 and second long 2
(halves differ), `read_uuid` returns `1 | (2 << 64)` - the FIRST long in
the least-significant bits, not `(1 << 64) | 2` as the claim's high-first
reading asserts - and the LoginSuccess decoder returns the same value, so
the two decoders do not differ. -/
theorem c6_uuid_counterexample :
    readUuid uuidBytes = some (2 * 2 ^ 64 + 1, []) ∧
    2 * 2 ^ 64 + 1 ≠ 2 ^ 64 + 2 ∧
    (loginSuccessFrom (uuidBytes ++ [0, 0])).map (fun p => p.1.uuid) =
      some (2 * 2 ^ 64 + 1) := by
  refine ⟨by decide, by decide, by decide⟩

/-- Witness for the amended C6 at the concrete uuid bytes followed by an
empty username and empty property list. -/
theorem c6_uuid_amended_witness :
    (∀ p pr, loginSuccessFrom (uuidBytes ++ [0, 0]) = some (p, pr) →
        p.uuid = 2 * 2 ^ 64 + 1) ∧
    (∀ l1 r1, readUlong (uuidBytes ++ [0, 0]) = some (l1, r1) →
        (2 * 2 ^ 64 + 1) % 2 ^ 64 = l1) :=
  c6_uuid_amended (uuidBytes ++ [0, 0]) (by decide) (2 * 2 ^ 64 + 1) [0, 0] (by decide)

/-- C8 as amended: in Login state with the three protocol-phase handlers
registered and no fallback, every packet whose id is neither 0x02 nor 0x03
is rejected with an error, but the error is a bad-state rejection only for
id 0x25 (whose handler requires Play state); for every other id the
registry returns the distinct no-fallback-handler error, not BadState. -/
theorem c8_registry_amended (c : MSocket) (p : PacketM)
    (hstate : c.state = .login) (h2 : p.id ≠ 0x02) (h3 : p.id ≠ 0x03) :
    managerHandle c p =
      some (.error (if p.id = 0x25 then handlerPacketError .badState
                    else noFallbackError)) := by
  rw [managerHandle, if_neg h3, if_neg h2]
  by_cases h25 : p.id = 0x25
  · rw [if_pos h25, if_pos h25, loginPlayHandler]
    have hne : c.state ≠ ConnState.play := by
      rw [hstate]
      intro hc
      cases hc
    rw [if_pos hne]
    rfl
  · rw [if_neg h25, if_neg h25]

/-- C8 counterexample: in Login state, a packet with id 0x10 (neither 0x03
nor 0x02) is rejected with the no-fallback-handler error, which is not the
bad-state rejection the claim names. -/
theorem c8_registry_counterexample :
    managerHandle ⟨.login, -1, 0⟩ ⟨0x10, []⟩ = some (.error noFallbackError) ∧
    noFallbackError ≠ handlerPacketError .badState := by
  refine ⟨rfl, by decide⟩

/-- Witness for the amended C8 at a Login-state socket and id 0x10. -/
theorem c8_registry_amended_witness :
    managerHandle ⟨.login, -1, 0⟩ ⟨0x10, []⟩ =
      some (.error (if (⟨0x10, []⟩ : PacketM).id = 0x25 then handlerPacketError .badState
                    else noFallbackError)) :=
  c8_registry_amended ⟨.login, -1, 0⟩ ⟨0x10, []⟩ rfl (by decide) (by decide)

/-- `toU32` is the identity on the small non-negative range. -/
theorem toU32_small (n : Int) (h0 : 0 ≤ n) (h1 : n < 2 ^ 32) : toU32 n = n.toNat := by
  rw [toU32]
  rw [Int.emod_eq_of_lt h0 (by exact_mod_cast h1)]

/-- Receiving a well-formed frame (correct minimal length prefix) reduces
to the payload-handling branch of `read_from_socket`: drop the length
prefix, read `data_len` when compression is on, and dispatch on
`data_len >= threshold`. -/
theorem readFrame_wellformed (decompress : List Nat → Option (List Nat)) (T : Int)
    (payload extra : List Nat) (hlt : payload.length < 2 ^ 28) :
    readFrame decompress T (writeVarint payload.length ++ payload ++ extra) =
      if T > 0 then
        match readVarint payload with
        | none => none
        | some (ul, d2) =>
          if (ul : Int) ≥ T then inflateTail decompress d2 extra else rawTail d2 extra
      else rawTail payload extra := by
  rw [List.append_assoc]
  have hwire := readWireLen_writeVarint payload.length (payload ++ extra) hlt
  simp only [readFrame, hwire]
  have hlen : ¬ (payload ++ extra).length < payload.length := by
    simp [List.length_append]
  rw [if_neg hlen, List.take_left, List.drop_left]
  simp only [rawTail, inflateTail]

/-- C2 as amended: the frame produced by `send_packet` at threshold `T`
decodes by `read_from_socket` at the same `T` back to the same id and
body, for every threshold, PROVIDED the id is a VarInt the 4-byte-capped
reader can decode (`0 ≤ id < 2^28`) and the sizes stay below `2^28`
(so every length VarInt fits 4 bytes), and assuming the zlib decoder
inverts the encoder.  (For ids outside that range the 4-byte reader cap of
C1 breaks the roundtrip, see the counterexample.) -/
theorem c2_roundtrip_amended (compress : List Nat → List Nat)
    (decompress : List Nat → Option (List Nat))
    (hinv : ∀ x, decompress (compress x) = some x)
    (threshold id0 : Int) (body extra : List Nat)
    (hid0 : 0 ≤ id0) (hid1 : id0 < 2 ^ 28)
    (hbody : body.length + 5 < 2 ^ 28)
    (hcomp : (compress (writeVarintI id0 ++ body)).length + 5 < 2 ^ 28) :
    readFrame decompress threshold (sendFrame compress threshold id0 body ++ extra) =
      some (.ok (id0.toNat, body, extra)) := by
  have hidn : id0.toNat < 2 ^ 28 := by omega
  have hidt : toU32 id0 = id0.toNat := toU32_small id0 hid0 (by
    have h1 : (2 : Int) ^ 28 < 2 ^ 32 := by norm_num
    omega)
  have hwv : writeVarintI id0 = writeVarint id0.toNat := by rw [writeVarintI, hidt]
  have hwlen : (writeVarintI id0).length ≤ 4 := by
    rw [hwv]
    apply writeVarint_length_le 4 (by norm_num)
    calc id0.toNat < 2 ^ 28 := hidn
      _ ≤ 2 ^ (7 * 4) := by norm_num
  have hreadinner : readVarint (writeVarintI id0 ++ body) = some (id0.toNat, body) := by
    rw [hwv]
    exact readVarint_writeVarint id0.toNat body hidn
  simp only [sendFrame]
  set c := compress (writeVarintI id0 ++ body) with hc
  set inn := writeVarintI id0 ++ body with hinn
  set n := inn.length with hnd
  have hn : n < 2 ^ 28 := by
    rw [hnd, hinn]
    simp only [List.length_append]
    omega
  have h2832 : (2 : Nat) ^ 28 < 2 ^ 32 := by norm_num
  have hnmod : n % 2 ^ 32 = n := Nat.mod_eq_of_lt (by omega)
  rw [hnmod]
  by_cases hT : threshold > 0
  · rw [if_pos hT]
    by_cases hge : ((n : Nat) : Int) ≥ threshold
    · rw [if_pos hge]
      have hw4 : (writeVarint n).length ≤ 4 := by
        apply writeVarint_length_le 4 (by norm_num)
        calc n < 2 ^ 28 := hn
          _ ≤ 2 ^ (7 * 4) := by norm_num
      have hL : (writeVarint n ++ c).length < 2 ^ 28 := by
        simp only [List.length_append]
        omega
      have hLmod : (writeVarint n ++ c).length % 2 ^ 32 = (writeVarint n ++ c).length :=
        Nat.mod_eq_of_lt (by omega)
      rw [hLmod, readFrame_wellformed decompress threshold (writeVarint n ++ c) extra hL,
        if_pos hT, readVarint_writeVarint n c hn]
      simp only [if_pos hge, inflateTail, hc, hinv, rawTail, hreadinner]
    · rw [if_neg hge]
      have hn1mod : (n + 1) % 2 ^ 32 = n + 1 := Nat.mod_eq_of_lt (by omega)
      have hpl : (writeVarint 0 ++ inn).length = n + 1 := by
        rw [writeVarint_lt 0 (by norm_num)]
        simp only [List.length_append, List.length_singleton]
        omega
      have hplt : (writeVarint 0 ++ inn).length < 2 ^ 28 := by
        rw [hpl, hnd, hinn]
        simp only [List.length_append]
        omega
      rw [hn1mod, List.append_assoc (writeVarint (n + 1)) (writeVarint 0) inn, ← hpl,
        readFrame_wellformed decompress threshold (writeVarint 0 ++ inn) extra hplt,
        if_pos hT, readVarint_writeVarint 0 inn (by norm_num)]
      have h0T : ¬ (((0 : Nat) : Int) ≥ threshold) := by
        simp only [Nat.cast_zero]
        omega
      simp only [if_neg h0T, rawTail, hreadinner]
  · rw [if_neg hT, readFrame_wellformed decompress threshold inn extra hn, if_neg hT]
    simp only [rawTail, hreadinner]

/-- C2 counterexample: the claim quantifies over every packet id.  For
id -1 (threshold disabled, empty body) the frame is
`05 FF FF FF FF 0F`; decoding reads the id VarInt with the 4-byte-capped
reader, returning id 0x0FFFFFFF with the leftover byte 0F as body - not
the original (id, body). -/
theorem c2_roundtrip_counterexample :
    sendFrame (fun x => x) (-1) (-1) [] = [5, 255, 255, 255, 255, 15] ∧
    readFrame some (-1) [5, 255, 255, 255, 255, 15] =
      some (.ok (268435455, [15], [])) ∧
    (268435455 : Nat) ≠ toU32 (-1) ∧ ([15] : List Nat) ≠ [] := by
  refine ⟨?_, rfl, by decide, by decide⟩
  simp only [sendFrame, writeVarintI_neg_one, List.append_nil]
  norm_num
  rw [writeVarint_lt _ (by norm_num)]
  rfl

/-- Witness for the amended C2: threshold 1, id 0, body `41`; the inner
size 2 is at or above the threshold, so this exercises the compressed
path with the identity zlib pair. -/
theorem c2_roundtrip_amended_witness :
    readFrame some 1 (sendFrame (fun x => x) 1 0 [65] ++ []) =
      some (.ok ((0 : Int).toNat, [65], [])) :=
  c2_roundtrip_amended (fun x => x) some (fun _ => rfl) 1 0 [65] []
    (by norm_num) (by norm_num) (by norm_num) (by norm_num [writeVarintI_zero])

/-- C3 as amended: with a positive threshold `T`, the receive procedure
selects the branch by comparing `data_len` against `T`, not by testing it
for zero: `data_len < T` (including every non-zero value below `T`) takes
the raw id+body path, and only `data_len >= T` decompresses the remaining
bytes. -/
theorem c3_branch_amended (decompress : List Nat → Option (List Nat)) (T : Int)
    (hT : 0 < T) (d : Nat) (hd : d < 2 ^ 28) (p extra : List Nat)
    (hp : (writeVarint d ++ p).length < 2 ^ 28) :
    ((d : Int) < T →
      readFrame decompress T
          (writeVarint (writeVarint d ++ p).length ++ (writeVarint d ++ p) ++ extra) =
        rawTail p extra) ∧
    ((d : Int) ≥ T →
      readFrame decompress T
          (writeVarint (writeVarint d ++ p).length ++ (writeVarint d ++ p) ++ extra) =
        inflateTail decompress p extra) := by
  have hred : readFrame decompress T
      (writeVarint (writeVarint d ++ p).length ++ (writeVarint d ++ p) ++ extra) =
      if (d : Int) ≥ T then inflateTail decompress p extra else rawTail p extra := by
    rw [readFrame_wellformed decompress T (writeVarint d ++ p) extra hp, if_pos hT]
    simp only [readVarint_writeVarint d p hd]
  constructor
  · intro hlt
    rw [hred, if_neg (by omega)]
  · intro hge
    rw [hred, if_pos hge]

/-- C3 counterexample: with threshold 128, the frame
`03 01 05 41` carries data_len = 1 (non-zero).  The claim says any
non-zero data_len means the remainder is decompressed; the code instead
compares `1 >= 128`, takes the raw path and returns id 5, body `41` -
while the decompressing interpretation (with a zlib stub returning
`06 42`) would return id 6, body `42`. -/
theorem c3_branch_counterexample :
    readFrame (fun _ => some [6, 66]) 128 [3, 1, 5, 65] = some (.ok (5, [65], [])) ∧
    inflateTail (fun _ => some [6, 66]) [5, 65] [] = some (.ok (6, [66], [])) ∧
    (some (.ok (5, [65], [])) : Option (Except String (Nat × List Nat × List Nat))) ≠
      some (.ok (6, [66], [])) := by
  refine ⟨rfl, rfl, by simp⟩

/-- Witness for the amended C3: threshold 2 with data_len 1 (raw path)
and data_len 5 (decompress path). -/
theorem c3_branch_amended_witness :
    readFrame some 2
        (writeVarint (writeVarint 1 ++ [7]).length ++ (writeVarint 1 ++ [7]) ++ []) =
      rawTail [7] [] ∧
    readFrame some 2
        (writeVarint (writeVarint 5 ++ [7]).length ++ (writeVarint 5 ++ [7]) ++ []) =
      inflateTail some [7] [] :=
  ⟨(c3_branch_amended some 2 (by norm_num) 1 (by norm_num) [7] []
      (by rw [writeVarint_lt 1 (by norm_num)]; norm_num)).1 (by norm_num),
   (c3_branch_amended some 2 (by norm_num) 5 (by norm_num) [7] []
      (by rw [writeVarint_lt 5 (by norm_num)]; norm_num)).2 (by norm_num)⟩

/-- Shape of every error the NBT decoder can produce: the unknown-tag
message for a tag outside 0x00-0x0C. -/
def errShape (msg : String) : Prop :=
  ∃ u, 12 < u ∧ msg = "Unknown NBT type: " ++ toString u

/-- A lifted plain reader never produces a decode error. -/
theorem okMap_ne_error {α : Type} (f : α → NBT × List Nat) (o : Option α) (m : String) :
    okMap f o = some (.error m) → False := by
  cases o <;> simp [okMap]

/-- Exhausted fuel is `none`, never an error. -/
theorem nbtRaw_zero_err (data : List Nat) (t : Nat) (msg : String) :
    nbtRaw 0 data t = some (.error msg) → errShape msg := by
  intro h
  simp [nbtRaw] at h

/-- List-element loop errors come from element decoding. -/
theorem nbtList_err (f : Nat)
    (hP : ∀ data t msg, nbtRaw f data t = some (.error msg) → errShape msg) :
    ∀ n it data msg, nbtList f it n data = some (.error msg) → errShape msg := by
  intro n
  induction n with
  | zero =>
    intro it data msg h
    simp [nbtList] at h
  | succ n ih =>
    intro it data msg h
    rw [nbtList] at h
    rcases h1 : nbtRaw f data it with _ | e
    · simp only [h1] at h
      exact Option.noConfusion h
    · rcases e with e | ⟨v, d1⟩
      · simp only [h1, Option.some.injEq, Except.error.injEq] at h
        exact h ▸ hP data it e h1
      · simp only [h1] at h
        rcases h2 : nbtList f it n d1 with _ | e2
        · simp only [h2] at h
          exact Option.noConfusion h
        · rcases e2 with e2 | ⟨vs, d2⟩
          · simp only [h2, Option.some.injEq, Except.error.injEq] at h
            exact h ▸ ih it d1 e2 h2
          · simp only [h2] at h
            exact absurd h (by simp)

/-- Step case: every error of `from_packet_raw` is the unknown-tag error
of some tag above 0x0C, the only `Err` in the function. -/
theorem nbtRaw_succ_err (f : Nat)
    (hQ : ∀ n it data msg, nbtList f it n data = some (.error msg) → errShape msg)
    (hR : ∀ acc data msg, nbtCompound f acc data = some (.error msg) → errShape msg) :
    ∀ data t msg, nbtRaw (f + 1) data t = some (.error msg) → errShape msg := by
  intro data t msg h
  rw [nbtRaw] at h
  by_cases h0 : t = 0
  · rw [if_pos h0] at h
    exact absurd h (by simp)
  rw [if_neg h0] at h
  by_cases h1 : t = 1
  · rw [if_pos h1] at h
    exact (okMap_ne_error _ _ _ h).elim
  rw [if_neg h1] at h
  by_cases h2 : t = 2
  · rw [if_pos h2] at h
    exact (okMap_ne_error _ _ _ h).elim
  rw [if_neg h2] at h
  by_cases h3 : t = 3
  · rw [if_pos h3] at h
    exact (okMap_ne_error _ _ _ h).elim
  rw [if_neg h3] at h
  by_cases h4 : t = 4
  · rw [if_pos h4] at h
    exact (okMap_ne_error _ _ _ h).elim
  rw [if_neg h4] at h
  by_cases h5 : t = 5
  · rw [if_pos h5] at h
    exact (okMap_ne_error _ _ _ h).elim
  rw [if_neg h5] at h
  by_cases h6 : t = 6
  · rw [if_pos h6] at h
    exact (okMap_ne_error _ _ _ h).elim
  rw [if_neg h6] at h
  by_cases h7 : t = 7
  · rw [if_pos h7] at h
    rcases hr : readInt data with _ | ⟨len, d⟩
    · simp only [hr] at h
      exact Option.noConfusion h
    · simp only [hr] at h
      exact (okMap_ne_error _ _ _ h).elim
  rw [if_neg h7] at h
  by_cases h8 : t = 8
  · rw [if_pos h8] at h
    exact (okMap_ne_error _ _ _ h).elim
  rw [if_neg h8] at h
  by_cases h9 : t = 9
  · rw [if_pos h9] at h
    rcases hb : readByte data with _ | ⟨itT, d1⟩
    · simp only [hb] at h
      exact Option.noConfusion h
    · simp only [hb] at h
      rcases hri : readInt d1 with _ | ⟨len, d2⟩
      · simp only [hri] at h
        exact Option.noConfusion h
      · simp only [hri] at h
        rcases hl : nbtList f itT (natCount len) d2 with _ | e
        · simp only [hl] at h
          exact Option.noConfusion h
        · rcases e with e | ⟨vs, d3⟩
          · simp only [hl, Option.some.injEq, Except.error.injEq] at h
            exact h ▸ hQ (natCount len) itT d2 e hl
          · simp only [hl] at h
            exact absurd h (by simp)
  rw [if_neg h9] at h
  by_cases h10 : t = 10
  · rw [if_pos h10] at h
    rcases hc : nbtCompound f [] data with _ | e
    · simp only [hc] at h
      exact Option.noConfusion h
    · rcases e with e | ⟨entries, d1⟩
      · simp only [hc, Option.some.injEq, Except.error.injEq] at h
        exact h ▸ hR [] data e hc
      · simp only [hc] at h
        exact absurd h (by simp)
  rw [if_neg h10] at h
  by_cases h11 : t = 11
  · rw [if_pos h11] at h
    rcases hr : readInt data with _ | ⟨len, d⟩
    · simp only [hr] at h
      exact Option.noConfusion h
    · simp only [hr] at h
      exact (okMap_ne_error _ _ _ h).elim
  rw [if_neg h11] at h
  by_cases h12 : t = 12
  · rw [if_pos h12] at h
    rcases hr : readInt data with _ | ⟨len, d⟩
    · simp only [hr] at h
      exact Option.noConfusion h
    · simp only [hr] at h
      exact (okMap_ne_error _ _ _ h).elim
  rw [if_neg h12] at h
  simp only [Option.some.injEq, Except.error.injEq] at h
  exact ⟨t, by omega, h.symm⟩

/-- Compound-loop errors come from entry payload decoding. -/
theorem nbtCompound_succ_err (f : Nat)
    (hP : ∀ data t msg, nbtRaw f data t = some (.error msg) → errShape msg)
    (hR : ∀ acc data msg, nbtCompound f acc data = some (.error msg) → errShape msg) :
    ∀ acc data msg, nbtCompound (f + 1) acc data = some (.error msg) → errShape msg := by
  intro acc data msg h
  rw [nbtCompound] at h
  rcases hb : readByte data with _ | ⟨t0, d1⟩
  · simp only [hb] at h
    exact Option.noConfusion h
  · simp only [hb] at h
    by_cases ht0 : t0 = 0
    · rw [if_pos ht0] at h
      exact absurd h (by simp)
    · rw [if_neg ht0] at h
      rcases hs : readStringUshort d1 with _ | ⟨name, d2⟩
      · simp only [hs] at h
        exact Option.noConfusion h
      · simp only [hs] at h
        rcases hn : nbtRaw f d2 t0 with _ | e
        · simp only [hn] at h
          exact Option.noConfusion h
        · rcases e with e | ⟨v, d3⟩
          · simp only [hn, Option.some.injEq, Except.error.injEq] at h
            exact h ▸ hP d2 t0 e hn
          · simp only [hn] at h
            exact hR _ d3 msg h

/-- Exhausted fuel in the compound loop is `none`, never an error. -/
theorem nbtCompound_zero_err :
    ∀ acc data msg, nbtCompound 0 acc data = some (.error msg) → errShape msg := by
  intro acc data msg h
  simp [nbtCompound] at h

/-- Every error of the NBT decoder, at any fuel, is the unknown-tag
message for a tag above 0x0C. -/
theorem nbt_err_shape : ∀ f,
    (∀ data t msg, nbtRaw f data t = some (.error msg) → errShape msg) ∧
    (∀ acc data msg, nbtCompound f acc data = some (.error msg) → errShape msg) := by
  intro f
  induction f with
  | zero => exact ⟨nbtRaw_zero_err, nbtCompound_zero_err⟩
  | succ f ih =>
    obtain ⟨hP, hR⟩ := ih
    refine ⟨nbtRaw_succ_err f (nbtList_err f hP) hR, nbtCompound_succ_err f hP hR⟩

/-- C10: a negative signed 32-bit length in a ByteArray (0x07), IntArray
(0x0B), LongArray (0x0C) or List (0x09) payload makes the element loop
(`for _ in 0..length`) run zero times, so decoding succeeds with the empty
collection and consumes nothing past the length field; and
`from_packet_raw` returns an error only as the unknown-tag message of a
type tag outside 0x00-0x0C. -/
theorem c10_nbt_lengths :
    (∀ fuel data rest n, readInt data = some (n, rest) → n < 0 →
      nbtRaw (fuel + 1) data 0x07 = some (.ok (.tByteArray [], rest)) ∧
      nbtRaw (fuel + 1) data 0x0B = some (.ok (.tIntArray [], rest)) ∧
      nbtRaw (fuel + 1) data 0x0C = some (.ok (.tLongArray [], rest))) ∧
    (∀ fuel b data rest n, readInt data = some (n, rest) → n < 0 →
      nbtRaw (fuel + 1) (b :: data) 0x09 = some (.ok (.tList [], rest))) ∧
    (∀ fuel data t msg, nbtRaw fuel data t = some (.error msg) →
      ∃ u, 12 < u ∧ msg = "Unknown NBT type: " ++ toString u) := by
  refine ⟨?_, ?_, ?_⟩
  · intro fuel data rest n hread hneg
    have hcount : natCount n = 0 := by rw [natCount, if_pos hneg]
    refine ⟨?_, ?_, ?_⟩ <;>
    · rw [nbtRaw]
      norm_num
      simp only [hread, hcount, readI8s, readI32s, readI64s, okMap, Option.map_some']
  · intro fuel b data rest n hread hneg
    have hcount : natCount n = 0 := by rw [natCount, if_pos hneg]
    rw [nbtRaw]
    norm_num
    simp only [readByte, hread, hcount, nbtList]
  · intro fuel data t msg h
    exact (nbt_err_shape fuel).1 data t msg h

/-- C10: a negative signed 32-bit length in a ByteArray (0x07), IntArray
(0x0B), LongArray (0x0C) or List (0x09) payload makes the element loop
(`for _ in 0..length`) run zero times, so decoding succeeds with the empty
collection and consumes nothing past the length field; and
`from_packet_raw` returns an error only as the unknown-tag message of a
type tag outside 0x00-0x0C. -/
theorem c10_nbt_lengths_witness :
    (nbtRaw 1 [255, 255, 255, 255] 0x07 = some (.ok (.tByteArray [], [])) ∧
     nbtRaw 1 [255, 255, 255, 255] 0x0B = some (.ok (.tIntArray [], [])) ∧
     nbtRaw 1 [255, 255, 255, 255] 0x0C = some (.ok (.tLongArray [], []))) ∧
    nbtRaw 1 [9, 255, 255, 255, 255] 0x09 = some (.ok (.tList [], [])) ∧
    (∃ u, 12 < u ∧ ("Unknown NBT type: " ++ toString 13) = "Unknown NBT type: " ++ toString u) :=
  ⟨c10_nbt_lengths.1 0 [255, 255, 255, 255] [] (-1) (by decide) (by decide),
   c10_nbt_lengths.2.1 0 9 [255, 255, 255, 255] [] (-1) (by decide) (by decide),
   c10_nbt_lengths.2.2 1 [] 13 ("Unknown NBT type: " ++ toString 13) (by
     rw [nbtRaw]
     norm_num)⟩

/-- C9: the claim says each one-shot subscriber is invoked at most once
across any sequence of emitted and dispatched events, matching the
source's own doc for `register_handler_once` ("will be called only
once", events/mod.rs 64-66), but the code does not guarantee it:
`dispatch_all` spawns one unjoined thread per drained event
(events/mod.rs 101-104), and each thread clones `handlers_once`
(events/mod.rs 111) before any thread removes the dispatched bucket
(events/mod.rs 131).  Under the schedule where both threads of two
same-type events clone before either removes - the spec's own
two-SpawnEvent scenario - the one-shot subscriber (token 0) is invoked
twice, while the persistent subscriber (token 1) fires once per event. -/
theorem c9_once_race :
    (crun raceSched raceInit).olog = [0, 0] ∧
    ¬ ((crun raceSched raceInit).olog.count 0 ≤ 1) ∧
    (crun raceSched raceInit).plog = [1, 1] ∧
    (crun raceSched raceInit).oncehs = [] := by
  refine ⟨by decide, by decide, by decide, by decide⟩
